import Mathlib

/-!
# Verification of the Marlin renderer-context slice

Shallow embedding of `sun.java2d.marlin.RendererContext`,
`WLVKSurfaceData.cpp` and the `JawsAnnounce` accessibility bridge,
together with spec-level models of the pipeline stages whose sources are
not part of this slice (normalizing path iterators, dasher, curve
monotonizer, array caches).  Machine integers are modelled as `Int`,
`double` coordinates as `ℚ` (or `ℝ` for the curve analysis), and object
identity as a `Nat` tag allocated from a counter.
-/

/-- A pipeline stage instance owned by a `RendererContext`: `id` is the
object identity (fixed at construction) and `disposeCalls` counts how
often the stage's own `dispose()` has been invoked (a force-reset). -/
structure StageInstance where
  id : Nat
  disposeCalls : Nat
deriving Repr, DecidableEq

/-- Force-reset of a stage: its `dispose()` method is called once.
The identity of the instance is unchanged. -/
def StageInstance.dispose (s : StageInstance) : StageInstance :=
  { s with disposeCalls := s.disposeCalls + 1 }

/-- `java.awt.geom.Path2D.Double` as used by `getPath2D`: an object
identity, a winding rule, and the recorded segment buffer (abstracted to
a list of opaque entries).  `reset()` empties the segment buffer. -/
structure Path2D where
  id : Nat
  windingRule : Nat
  segments : List Nat
deriving Repr, DecidableEq

/-- `Path2D.reset()`: removes all recorded segments; identity and winding
rule are kept. -/
def Path2D.reset (p : Path2D) : Path2D :=
  { p with segments := [] }

/-- `Path2D.WIND_NON_ZERO` (java.awt.geom). -/
def WIND_NON_ZERO : Nat := 1

/-- State of `RendererContext` (RendererContext.java).  Stage fields are
`final` in the source; per-operation fields (`stroking`, `doClip`,
`closedPath`, `clipInvScale`, `firstFlags`) and the `dirty` flag are
mutable.  `refPath2D` models the `WeakReference<Path2D.Double>` field:
`none` = field is null, `some none` = reference exists but the referent
was collected, `some (some p)` = referent alive with state `p`.
`nextPathId` is the allocator for fresh `Path2D` identities.  The
optional statistics block (`DO_STATS`) is omitted. -/
structure RendererContext where
  dirty : Bool
  stroking : Int
  doClip : Bool
  closedPath : Bool
  clipInvScale : ℚ
  firstFlags : Int
  nPCPathIterator : StageInstance
  nPQPathIterator : StageInstance
  transformerPC2D : StageInstance
  renderer : StageInstance
  stroker : StageInstance
  simplifier : StageInstance
  pathSimplifier : StageInstance
  dasher : StageInstance
  ptg : StageInstance
  ftg : StageInstance
  cache : StageInstance
  monotonizer : StageInstance
  curveClipSplitter : StageInstance
  refPath2D : Option (Option Path2D)
  nextPathId : Nat
deriving Repr, DecidableEq

/-- Modelled from the spec: an error in the pipeline (`pathTo()`, not in
this slice) marks the context dirty, as documented on the `dirty` field
("dirty flag indicating an exception occurred during pipeline in
pathTo()"). -/
def RendererContext.markDirty (ctx : RendererContext) : RendererContext :=
  { ctx with dirty := true }

/-- `RendererContext.dispose()` (RendererContext.java, lines 167-196):
unconditionally resets the per-operation fields; if the context is
dirty, force-resets the two normalizing path iterators, the dasher and
the stroker (explicitly not the Renderer), then clears the dirty flag. -/
def RendererContext.dispose (ctx : RendererContext) : RendererContext :=
  let c := { ctx with
    stroking := 0
    doClip := false
    closedPath := false
    clipInvScale := 0
    firstFlags := 0 }
  if c.dirty then
    { c with
      nPCPathIterator := c.nPCPathIterator.dispose
      nPQPathIterator := c.nPQPathIterator.dispose
      dasher := c.dasher.dispose
      stroker := c.stroker.dispose
      dirty := false }
  else
    c

/-- `RendererContext.getPath2D()` (RendererContext.java, lines 198-212):
resolves the weak reference; if the referent is null (never created, or
collected) a fresh `Path2D.Double(WIND_NON_ZERO, INITIAL_EDGES_COUNT)`
is created and the weak reference updated; the path is reset in every
case before being returned.  The `Bool` component reports whether the
"create a new Path2D" branch was taken. -/
def RendererContext.getPath2D (ctx : RendererContext) :
    Path2D × Bool × RendererContext :=
  match ctx.refPath2D.join with
  | some p =>
      let p2 := p.reset
      (p2, false, { ctx with refPath2D := some (some p2) })
  | none =>
      let p := Path2D.mk ctx.nextPathId WIND_NON_ZERO []
      let p2 := p.reset
      (p2, true,
        { ctx with refPath2D := some (some p2),
                   nextPathId := ctx.nextPathId + 1 })

/-- Environment action: the garbage collector clears the referent of an
existing weak reference.  The field itself stays non-null. -/
def RendererContext.collectWeakPath2D (ctx : RendererContext) : RendererContext :=
  { ctx with refPath2D := ctx.refPath2D.map (fun _ => none) }

/-- `RendererContext(String name)` constructor: fresh stage instances
(distinct identities), clean flags, null `refPath2D`. -/
def RendererContext.create : RendererContext where
  dirty := false
  stroking := 0
  doClip := false
  closedPath := false
  clipInvScale := 0
  firstFlags := 0
  nPCPathIterator := ⟨0, 0⟩
  nPQPathIterator := ⟨1, 0⟩
  transformerPC2D := ⟨2, 0⟩
  renderer := ⟨3, 0⟩
  stroker := ⟨4, 0⟩
  simplifier := ⟨5, 0⟩
  pathSimplifier := ⟨6, 0⟩
  dasher := ⟨7, 0⟩
  ptg := ⟨8, 0⟩
  ftg := ⟨9, 0⟩
  cache := ⟨10, 0⟩
  monotonizer := ⟨11, 0⟩
  curveClipSplitter := ⟨12, 0⟩
  refPath2D := none
  nextPathId := 0

/-- C1: marking a context dirty (the simulated mid-pipeline failure)
followed by `dispose()` force-resets exactly the two normalizing path
iterators, the dasher and the stroker; the renderer and the coverage
cache (and every other stage) are untouched; and `dispose()` leaves the
dirty flag false from every initial state. -/
theorem dispose_force_resets_exactly_failure_stages (ctx : RendererContext) :
    ((ctx.markDirty).dirty = true) ∧
    ((ctx.dispose).dirty = false) ∧
    (ctx.dirty = true →
      ((ctx.dispose).nPCPathIterator.disposeCalls
          = ctx.nPCPathIterator.disposeCalls + 1 ∧
       (ctx.dispose).nPQPathIterator.disposeCalls
          = ctx.nPQPathIterator.disposeCalls + 1 ∧
       (ctx.dispose).dasher.disposeCalls = ctx.dasher.disposeCalls + 1 ∧
       (ctx.dispose).stroker.disposeCalls = ctx.stroker.disposeCalls + 1)) ∧
    (ctx.dirty = false →
      ((ctx.dispose).nPCPathIterator = ctx.nPCPathIterator ∧
       (ctx.dispose).nPQPathIterator = ctx.nPQPathIterator ∧
       (ctx.dispose).dasher = ctx.dasher ∧
       (ctx.dispose).stroker = ctx.stroker)) ∧
    ((ctx.dispose).renderer = ctx.renderer) ∧
    ((ctx.dispose).cache = ctx.cache) ∧
    ((ctx.dispose).transformerPC2D = ctx.transformerPC2D) ∧
    ((ctx.dispose).simplifier = ctx.simplifier) ∧
    ((ctx.dispose).pathSimplifier = ctx.pathSimplifier) ∧
    ((ctx.dispose).ptg = ctx.ptg) ∧
    ((ctx.dispose).ftg = ctx.ftg) ∧
    ((ctx.dispose).monotonizer = ctx.monotonizer) ∧
    ((ctx.dispose).curveClipSplitter = ctx.curveClipSplitter) := by
  unfold RendererContext.dispose RendererContext.markDirty StageInstance.dispose
  cases h : ctx.dirty <;> simp [h]

/-- C1 witness: the property instantiated at a freshly created context. -/
theorem dispose_force_resets_exactly_failure_stages_witness :
    ((RendererContext.create.markDirty).dirty = true) ∧
    (((RendererContext.create.markDirty).dispose).dirty = false) := by
  have h := dispose_force_resets_exactly_failure_stages RendererContext.create.markDirty
  exact ⟨(dispose_force_resets_exactly_failure_stages RendererContext.create).1,
         h.2.1⟩

/-- C6: `dispose()` is a reset, not a destruction: the per-operation
fields are unconditionally reset (`stroking = 0`, `doClip = false`,
`closedPath = false`, `clipInvScale = 0.0`, `firstFlags = 0`) while every
stage instance keeps its identity across the reset. -/
theorem dispose_resets_state_preserves_stage_identities (ctx : RendererContext) :
    ((ctx.dispose).stroking = 0) ∧
    ((ctx.dispose).doClip = false) ∧
    ((ctx.dispose).closedPath = false) ∧
    ((ctx.dispose).clipInvScale = 0) ∧
    ((ctx.dispose).firstFlags = 0) ∧
    ((ctx.dispose).renderer.id = ctx.renderer.id) ∧
    ((ctx.dispose).stroker.id = ctx.stroker.id) ∧
    ((ctx.dispose).dasher.id = ctx.dasher.id) ∧
    ((ctx.dispose).cache.id = ctx.cache.id) ∧
    ((ctx.dispose).ptg.id = ctx.ptg.id) ∧
    ((ctx.dispose).ftg.id = ctx.ftg.id) ∧
    ((ctx.dispose).nPCPathIterator.id = ctx.nPCPathIterator.id) ∧
    ((ctx.dispose).nPQPathIterator.id = ctx.nPQPathIterator.id) ∧
    ((ctx.dispose).monotonizer.id = ctx.monotonizer.id) ∧
    ((ctx.dispose).curveClipSplitter.id = ctx.curveClipSplitter.id) ∧
    ((ctx.dispose).transformerPC2D.id = ctx.transformerPC2D.id) ∧
    ((ctx.dispose).simplifier.id = ctx.simplifier.id) ∧
    ((ctx.dispose).pathSimplifier.id = ctx.pathSimplifier.id) := by
  unfold RendererContext.dispose StageInstance.dispose
  cases h : ctx.dirty <;> simp [h]

/-- C8: every call to `getPath2D` returns a path whose segment buffer is
empty (the reset state), whether the instance was fresh or reused. -/
theorem getPath2D_returns_reset_path (ctx : RendererContext) :
    ((ctx.getPath2D).1).segments = [] := by
  unfold RendererContext.getPath2D
  cases h : ctx.refPath2D.join <;> simp [h, Path2D.reset]

/-- C7 counterexample: `getPath2D` is backed by a weak reference, not an
owned instance.  Starting from a fresh context, one call returns a path,
the garbage collector clears the weak referent, and the next call takes
the "might have been collected" branch (`true` flag) and returns a
*different* instance — refuting "the same owned instance is returned on
every call". -/
theorem getPath2D_weakref_collected_branch_taken :
    (((RendererContext.create.getPath2D).2.2.collectWeakPath2D).getPath2D).2.1
        = true ∧
    (((RendererContext.create.getPath2D).2.2.collectWeakPath2D).getPath2D).1.id
        ≠ (RendererContext.create.getPath2D).1.id := by
  decide

/-- C7 (amended): the recyclable path is held through a weak reference;
when the referent is alive `getPath2D` reuses it (no creation), when the
reference is null or its referent was collected it creates a fresh
instance with the next allocation identity; in either case the returned
path is first reset. -/
theorem getPath2D_weakref_reuse_or_fresh (ctx : RendererContext) :
    (∀ p, ctx.refPath2D.join = some p →
      ((ctx.getPath2D).2.1 = false ∧ (ctx.getPath2D).1 = p.reset)) ∧
    (ctx.refPath2D.join = none →
      ((ctx.getPath2D).2.1 = true ∧
       (ctx.getPath2D).1.id = ctx.nextPathId ∧
       (ctx.getPath2D).2.2.nextPathId = ctx.nextPathId + 1)) ∧
    ((ctx.getPath2D).1).segments = [] := by
  unfold RendererContext.getPath2D
  cases h : ctx.refPath2D.join <;> simp [h, Path2D.reset]

/-- C7 amended witness: instantiated at a fresh context (null reference:
a new instance with identity 0 is created and reset). -/
theorem getPath2D_weakref_reuse_or_fresh_witness :
    (RendererContext.create.getPath2D).2.1 = true ∧
    (RendererContext.create.getPath2D).1.id = 0 ∧
    ((RendererContext.create.getPath2D).1).segments = [] := by
  have h := getPath2D_weakref_reuse_or_fresh RendererContext.create
  have hnull : RendererContext.create.refPath2D.join = none := rfl
  exact ⟨(h.2.1 hnull).1, (h.2.1 hnull).2.1, h.2.2⟩

/-- Dimension clamping in `Java_sun_java2d_vulkan_WLVKSurfaceData_initOps`
(WLVKSurfaceData.cpp, lines 101-106): `if (width <= 0) width = 1;` and
`if (height <= 0) height = 1;`. -/
def initOpsClampDim (v : Int) : Int := if v ≤ 0 then 1 else v

/-- The effective (width, height) a surface is initialized with. -/
def initOpsEffectiveDims (width height : Int) : Int × Int :=
  (initOpsClampDim width, initOpsClampDim height)

/-- C9: `initOps` clamps non-positive dimensions: any width `≤ 0` becomes
1, any height `≤ 0` becomes 1, and the effective dimensions are always at
least 1 (never zero or negative). -/
theorem initOps_clamps_nonpositive_dims (w h : Int) :
    (w ≤ 0 → (initOpsEffectiveDims w h).1 = 1) ∧
    (h ≤ 0 → (initOpsEffectiveDims w h).2 = 1) ∧
    1 ≤ (initOpsEffectiveDims w h).1 ∧
    1 ≤ (initOpsEffectiveDims w h).2 := by
  unfold initOpsEffectiveDims initOpsClampDim
  refine ⟨fun hw => by simp [hw], fun hh => by simp [hh], ?_, ?_⟩ <;>
    split <;> omega

/-- C9 witness: at width -5 and height 0 both effective dimensions are 1. -/
theorem initOps_clamps_nonpositive_dims_witness :
    (initOpsEffectiveDims (-5) 0).1 = 1 ∧ (initOpsEffectiveDims (-5) 0).2 = 1 :=
  ⟨(initOps_clamps_nonpositive_dims (-5) 0).1 (by decide),
   (initOps_clamps_nonpositive_dims (-5) 0).2.1 (by decide)⟩

/-- State of the `JawsAnnounce` translation unit (part_000): the
function-local statics `comInitThreadId` (captured the first time the
function runs), the `ComInitializationWrapper comInitializer` (attempt
counter plus whether COM is initialized), the cached
`ComObjectWrapper<IJawsApi> pJawsApi`, and the strings successfully
announced so far. -/
structure JawsState where
  comInitThreadId : Option Nat
  comInitAttempts : Nat
  comInitialized : Bool
  jawsApiCreated : Bool
  announced : List String
deriving Repr, DecidableEq

/-- Outcomes of the external COM/JNI calls made by `JawsAnnounce`
(CoInitialize, CoCreateInstance, string allocation, SayString). -/
structure JawsEnv where
  comInitSucceeds : Bool
  createApiSucceeds : Bool
  stringAllocSucceeds : Bool
  sayStringSucceeds : Bool
deriving Repr, DecidableEq

/-- `JawsAnnounce(env, str, priority)` (part_000, lines 407-533):
captures the current thread id into a static on first execution; returns
false at once when called from any other thread; otherwise lazily
initializes COM (one `CoInitialize` attempt at most, only when not yet
initialized), lazily creates the JAWS API object, obtains the string and
invokes `SayString`. -/
def jawsAnnounce (st : JawsState) (env : JawsEnv) (currThread : Nat)
    (str : String) : Bool × JawsState :=
  let initId := st.comInitThreadId.getD currThread
  let st1 := { st with comInitThreadId := some initId }
  if currThread ≠ initId then
    (false, st1)
  else
    let st2 :=
      if st1.comInitialized then st1
      else { st1 with comInitAttempts := st1.comInitAttempts + 1,
                      comInitialized := env.comInitSucceeds }
    if ¬ st2.comInitialized then (false, st2)
    else
      let st3 :=
        if st2.jawsApiCreated then st2
        else { st2 with jawsApiCreated := env.createApiSucceeds }
      if ¬ st3.jawsApiCreated then (false, st3)
      else if ¬ env.stringAllocSucceeds then (false, st3)
      else if env.sayStringSucceeds then
        (true, { st3 with announced := st3.announced ++ [str] })
      else
        (false, st3)

/-- C10: `JawsAnnounce` is thread-affine: once the first call has
captured a thread id, a call from a different thread returns false
without attempting COM initialization, without creating the API object
and without announcing anything. -/
theorem jawsAnnounce_thread_affine (st : JawsState) (env : JawsEnv)
    (tid t0 : Nat) (s : String)
    (hcap : st.comInitThreadId = some t0) (hne : tid ≠ t0) :
    (jawsAnnounce st env tid s).1 = false ∧
    (jawsAnnounce st env tid s).2.comInitAttempts = st.comInitAttempts ∧
    (jawsAnnounce st env tid s).2.comInitialized = st.comInitialized ∧
    (jawsAnnounce st env tid s).2.jawsApiCreated = st.jawsApiCreated ∧
    (jawsAnnounce st env tid s).2.announced = st.announced := by
  unfold jawsAnnounce
  simp [hcap, hne]

/-- C10 witness: a state whose captured thread id is 1, called from
thread 2 with every external call set to succeed, still returns false and
announces nothing. -/
theorem jawsAnnounce_thread_affine_witness :
    (jawsAnnounce ⟨some 1, 0, false, false, []⟩ ⟨true, true, true, true⟩
        2 "hello").1 = false ∧
    (jawsAnnounce ⟨some 1, 0, false, false, []⟩ ⟨true, true, true, true⟩
        2 "hello").2.announced = [] := by
  have h := jawsAnnounce_thread_affine ⟨some 1, 0, false, false, []⟩
    ⟨true, true, true, true⟩ 2 1 "hello" rfl (by decide)
  exact ⟨h.1, h.2.2.2.2⟩

/-- Modelled from the spec: `ArrayCacheIntClean`, the clean (zero-filled)
int-array cache referenced by `cleanIntCache` / `newCleanIntArrayRef`
(RendererContext.java, lines 103-104 and 225-227; the cache class itself
is not part of this slice).  The pool holds idle buffers; the clean-pool
contract is that idle buffers are entirely zero. -/
structure ArrayCacheIntClean where
  buffers : List (List Int)
deriving Repr, DecidableEq

/-- The clean-pool invariant: every idle buffer is entirely zero. -/
def ArrayCacheIntClean.IsClean (pool : ArrayCacheIntClean) : Prop :=
  ∀ b ∈ pool.buffers, ∀ x ∈ b, x = 0

instance (pool : ArrayCacheIntClean) : Decidable pool.IsClean := by
  unfold ArrayCacheIntClean.IsClean
  infer_instance

/-- Removes the first idle buffer whose capacity is at least `minCap`. -/
def takeFirstFit : List (List Int) → Nat → Option (List Int × List (List Int))
  | [], _ => none
  | b :: rest, minCap =>
      if minCap ≤ b.length then some (b, rest)
      else
        match takeFirstFit rest minCap with
        | none => none
        | some (b2, rest2) => some (b2, b :: rest2)

/-- Modelled from the spec: `checkout(minCapacity)` — hands out an idle
buffer of sufficient capacity, or a fresh zero-filled buffer on a pool
miss (clean pools hand out zero-filled storage). -/
def checkoutClean (pool : ArrayCacheIntClean) (minCap : Nat) :
    List Int × ArrayCacheIntClean :=
  match takeFirstFit pool.buffers minCap with
  | some (b, rest) => (b, ⟨rest⟩)
  | none => (List.replicate minCap 0, pool)

/-- Zero-fills the region of a buffer beyond `newLength`. -/
def zeroBeyond (buf : List Int) (newLength : Nat) : List Int :=
  buf.take newLength ++ List.replicate (buf.length - newLength) 0

/-- Modelled from the spec: `release(buffer, newLength)` — clean pools
zero-fill the buffer region beyond `newLength` at release, then return
the buffer to the idle set. -/
def releaseClean (pool : ArrayCacheIntClean) (buf : List Int)
    (newLength : Nat) : ArrayCacheIntClean :=
  ⟨pool.buffers ++ [zeroBeyond buf newLength]⟩

/-- The caller writes `vals` over the front of a checked-out buffer. -/
def writeElems (buf : List Int) (vals : List Int) : List Int :=
  vals ++ buf.drop vals.length

/-- A successful first-fit checkout from a clean set of buffers yields an
all-zero buffer and leaves a clean remainder. -/
theorem takeFirstFit_clean {bs : List (List Int)} {minCap : Nat}
    {b : List Int} {rest : List (List Int)}
    (h : takeFirstFit bs minCap = some (b, rest))
    (hc : ∀ l ∈ bs, ∀ x ∈ l, x = 0) :
    (∀ x ∈ b, x = 0) ∧ (∀ l ∈ rest, ∀ x ∈ l, x = 0) := by
  induction bs generalizing rest with
  | nil => simp [takeFirstFit] at h
  | cons b0 bs ih =>
      rw [takeFirstFit] at h
      by_cases hfit : minCap ≤ b0.length
      · rw [if_pos hfit] at h
        obtain ⟨hb, hrest⟩ := Prod.mk.injEq .. ▸ Option.some.injEq .. ▸ h
        subst hb; subst hrest
        exact ⟨hc b0 (by simp), fun l hl => hc l (by simp [hl])⟩
      · rw [if_neg hfit] at h
        cases hrec : takeFirstFit bs minCap with
        | none => rw [hrec] at h; simp at h
        | some p =>
            rw [hrec] at h
            obtain ⟨b2, rest2⟩ := p
            simp only [Option.some.injEq, Prod.mk.injEq] at h
            obtain ⟨hb, hrest⟩ := h
            subst hb
            have hcb : ∀ l ∈ bs, ∀ x ∈ l, x = 0 :=
              fun l hl => hc l (by simp [hl])
            obtain ⟨h1, h2⟩ := ih hrec hcb
            subst hrest
            refine ⟨h1, fun l hl => ?_⟩
            rcases List.mem_cons.mp hl with h | h
            · exact h ▸ hc b0 (by simp)
            · exact h2 l h

/-- Checking out from a clean pool yields an all-zero buffer and a clean
pool. -/
theorem checkoutClean_all_zero (pool : ArrayCacheIntClean) (minCap : Nat)
    (hc : pool.IsClean) :
    (∀ x ∈ (checkoutClean pool minCap).1, x = 0) ∧
    ((checkoutClean pool minCap).2).IsClean := by
  unfold checkoutClean
  cases h : takeFirstFit pool.buffers minCap with
  | none =>
      refine ⟨fun x hx => ?_, hc⟩
      simpa using List.eq_of_mem_replicate (by simpa using hx)
  | some p =>
      obtain ⟨b, rest⟩ := p
      obtain ⟨h1, h2⟩ := takeFirstFit_clean h hc
      exact ⟨h1, h2⟩

/-- Releasing with `newLength = 0` restores the clean invariant. -/
theorem releaseClean_zero_isClean (pool : ArrayCacheIntClean)
    (buf : List Int) (hc : pool.IsClean) :
    (releaseClean pool buf 0).IsClean := by
  intro l hl
  rcases List.mem_append.mp hl with h | h
  · exact hc l h
  · intro x hx
    have hb : l = List.replicate buf.length 0 := by
      simpa [zeroBeyond] using List.mem_singleton.mp h
    exact List.eq_of_mem_replicate (hb ▸ hx)

/-- An all-zero list reads zero at every index (with default 0). -/
theorem getD_zero_of_all_zero {l : List Int} (h : ∀ x ∈ l, x = 0)
    (i : Nat) : l.getD i 0 = 0 := by
  induction l generalizing i with
  | nil => simp
  | cons a l ih =>
      cases i with
      | zero => simpa using h a (by simp)
      | succ j =>
          simpa using ih (fun x hx => h x (by simp [hx])) j

/-- C4: round-trip on a clean pool — checkout, write `N` elements,
release (no valid length retained), checkout again with requested
capacity at most `N`: every one of the first `N` reads yields zero. -/
theorem cleanIntCache_roundtrip_reads_zero
    (pool : ArrayCacheIntClean) (cap0 reqCap N : Nat) (vals : List Int)
    (hclean : pool.IsClean) (hN : vals.length = N) (hreq : reqCap ≤ N) :
    ∀ i, i < N →
      ((checkoutClean
          (releaseClean (checkoutClean pool cap0).2
            (writeElems (checkoutClean pool cap0).1 vals) 0)
          reqCap).1).getD i 0 = 0 := by
  intro i _
  have h1 := checkoutClean_all_zero pool cap0 hclean
  have h2 := releaseClean_zero_isClean (checkoutClean pool cap0).2
    (writeElems (checkoutClean pool cap0).1 vals) h1.2
  have h3 := checkoutClean_all_zero _ reqCap h2
  exact getD_zero_of_all_zero h3.1 i

/-- C4 witness: a concrete clean pool of one 3-slot buffer, writing
[5, 7], releasing, and re-checking out with capacity 1 reads zero at
index 1. -/
theorem cleanIntCache_roundtrip_reads_zero_witness :
    ((checkoutClean
        (releaseClean (checkoutClean ⟨[[0, 0, 0]]⟩ 3).2
          (writeElems (checkoutClean ⟨[[0, 0, 0]]⟩ 3).1 [5, 7]) 0)
        1).1).getD 1 0 = 0 :=
  cleanIntCache_roundtrip_reads_zero ⟨[[0, 0, 0]]⟩ 3 1 2 [5, 7]
    (by decide) (by decide) (by decide) 1 (by decide)

/-- Modelled from the spec: the dasher's phase handling — advances a
cursor into the repeating dash pattern by the starting phase, returning
the pattern index and the offset consumed inside that dash.  Fuel-bounded
recursion (the walk is finite). -/
def dashAdvance : Nat → List ℚ → Nat → ℚ → Nat × ℚ
  | 0, _, i, ph => (i, ph)
  | f + 1, pat, i, ph =>
      let d := pat.getD (i % pat.length) 0
      if ph < d then (i, ph) else dashAdvance f pat (i + 1) (ph - d)

/-- Modelled from the spec: the dasher's walk over a straight segment —
tracks cumulative arc length against the repeating pattern cursor,
emitting each "on" stretch (even pattern indices) as an
(start, stop) arc-length interval, clipped at the segment length. -/
def dashWalk : Nat → List ℚ → Nat → ℚ → ℚ → ℚ → List (ℚ × ℚ)
  | 0, _, _, _, _, _ => []
  | f + 1, pat, i, off, pos, len =>
      if len ≤ pos then []
      else
        let d := pat.getD (i % pat.length) 0
        let reach := pos + (d - off)
        let stop := if len ≤ reach then len else reach
        let rest := dashWalk f pat (i + 1) 0 stop len
        if i % 2 = 0 then (pos, stop) :: rest else rest

/-- Modelled from the spec: `Dasher` applied to a single straight
segment of the given arc length, with a dash pattern (alternating
on/off lengths, starting "on") and a starting phase. -/
def dashSegment (pattern : List ℚ) (phase len : ℚ) : List (ℚ × ℚ) :=
  let s := dashAdvance 64 pattern 0 phase
  dashWalk 64 pattern s.1 s.2 0 len

set_option maxRecDepth 4000 in
/-- C5: dashing a straight segment of length 16 with pattern [4, 4] and
phase 0 yields exactly the two "on" sub-segments [0, 4] and [8, 12],
each of arc length 4. -/
theorem dashSegment_pattern44_phase0_len16 :
    dashSegment [4, 4] 0 16 = [(0, 4), (8, 12)] ∧
    (dashSegment [4, 4] 0 16).length = 2 ∧
    (dashSegment [4, 4] 0 16).map (fun p => p.2 - p.1) = [4, 4] := by
  have h : dashSegment [4, 4] 0 16 = [(0, 4), (8, 12)] := by
    show dashWalk 64 [4, 4] (dashAdvance 64 [4, 4] 0 0).1
      (dashAdvance 64 [4, 4] 0 0).2 0 16 = _
    norm_num [dashAdvance, dashWalk]
  refine ⟨h, by rw [h]; rfl, by rw [h]; norm_num⟩

/-- The two pixel-center snapping conventions of the two
`NormalizingPathIterator` instances (`nPCPathIterator`,
`nPQPathIterator`; RendererContext.java, lines 139-141). -/
inductive NormMode
  | nearestPixelCenter
  | nearestPixelQuarter
deriving Repr, DecidableEq

/-- An affine transform (matrix entries m00 m10 m01 m11 m02 m12). -/
structure AffineTransform where
  m00 : ℚ
  m10 : ℚ
  m01 : ℚ
  m11 : ℚ
  m02 : ℚ
  m12 : ℚ
deriving Repr, DecidableEq

/-- Applies an affine transform to a point. -/
def AffineTransform.apply (t : AffineTransform) (p : ℚ × ℚ) : ℚ × ℚ :=
  (t.m00 * p.1 + t.m01 * p.2 + t.m02,
   t.m10 * p.1 + t.m11 * p.2 + t.m12)

/-- Modelled from the spec: pixel-center snapping — nearest pixel
center, or nearest quarter-pixel center. -/
def snapCoord : NormMode → ℚ → ℚ
  | NormMode.nearestPixelCenter, x => ⌊x⌋ + 1 / 2
  | NormMode.nearestPixelQuarter, x => ⌊4 * x⌋ / 4 + 1 / 8

/-- A path segment command. -/
inductive PathSeg
  | moveTo (x y : ℚ)
  | lineTo (x y : ℚ)
  | quadTo (cx cy x y : ℚ)
  | curveTo (c1x c1y c2x c2y x y : ℚ)
  | closePath
deriving Repr, DecidableEq

/-- The coordinate pairs carried by a segment. -/
def segCoords : PathSeg → List (ℚ × ℚ)
  | .moveTo x y => [(x, y)]
  | .lineTo x y => [(x, y)]
  | .quadTo cx cy x y => [(cx, cy), (x, y)]
  | .curveTo a b c d x y => [(a, b), (c, d), (x, y)]
  | .closePath => []

/-- Rebuilds a segment of the same kind from the scratch buffer. -/
def rebuildSeg : PathSeg → List ℚ → PathSeg
  | .moveTo _ _, buf => .moveTo (buf.getD 0 0) (buf.getD 1 0)
  | .lineTo _ _, buf => .lineTo (buf.getD 0 0) (buf.getD 1 0)
  | .quadTo _ _ _ _, buf =>
      .quadTo (buf.getD 0 0) (buf.getD 1 0) (buf.getD 2 0) (buf.getD 3 0)
  | .curveTo _ _ _ _ _ _, buf =>
      .curveTo (buf.getD 0 0) (buf.getD 1 0) (buf.getD 2 0)
        (buf.getD 3 0) (buf.getD 4 0) (buf.getD 5 0)
  | .closePath, _ => .closePath

/-- The iterator's scratch coordinate buffer (the shared `double6`
array handed to both `NormalizingPathIterator` instances). -/
structure NormalizerState where
  scratch : List ℚ
deriving Repr, DecidableEq

/-- Modelled from the spec: one `NormalizingPathIterator` step —
transforms the segment's coordinates, snaps them under the chosen
pixel-center convention, stages them through the scratch buffer and
emits the rebuilt segment. -/
def normalizeStep (mode : NormMode) (t : AffineTransform) (seg : PathSeg)
    (st : NormalizerState) : PathSeg × NormalizerState :=
  match seg with
  | .closePath => (.closePath, st)
  | s =>
      let cs := (segCoords s).map (fun p =>
        let q := t.apply p
        (snapCoord mode q.1, snapCoord mode q.2))
      let buf := cs.foldr (fun p acc => p.1 :: p.2 :: acc) []
      (rebuildSeg s buf, ⟨buf⟩)

/-- Modelled from the spec: normalizing a whole path under a transform
and a pixel-center convention, threading the scratch state. -/
def runNormalize (mode : NormMode) (t : AffineTransform) :
    List PathSeg → NormalizerState → List PathSeg × NormalizerState
  | [], st => ([], st)
  | s :: rest, st =>
      let r := normalizeStep mode t s st
      let rr := runNormalize mode t rest r.2
      (r.1 :: rr.1, rr.2)

/-- C3: normalization is deterministic — for every transform, path and
pixel-center convention, two runs produce identical output coordinates,
whatever residue either run's scratch buffer started with. -/
theorem normalize_deterministic (mode : NormMode) (t : AffineTransform)
    (path : List PathSeg) (st1 st2 : NormalizerState) :
    (runNormalize mode t path st1).1 = (runNormalize mode t path st2).1 := by
  induction path generalizing st1 st2 with
  | nil => rfl
  | cons s rest ih =>
      cases s <;> simp only [runNormalize, normalizeStep] <;>
        exact congrArg _ (ih _ _)

/-- Modelled from the spec: the Y-coordinate of a quadratic or cubic
curve as a polynomial in the curve parameter (cubic coefficients;
quadratics have `c3 = 0`).  The `CurveBasicMonotonizer` class itself is
not part of this slice (only its `monotonizer` field,
RendererContext.java lines 90-91). -/
def curveY (c0 c1 c2 c3 : ℝ) (t : ℝ) : ℝ :=
  c0 + c1 * t + c2 * t ^ 2 + c3 * t ^ 3

/-- The derivative of `curveY` in the parameter. -/
def curveDY (c1 c2 c3 : ℝ) (t : ℝ) : ℝ :=
  c1 + 2 * c2 * t + 3 * c3 * t ^ 2

/-- Modelled from the spec: the monotonizer "solves the derivative's
roots in the curve parameter domain to find Y-extrema; splits at each
real root in (0,1)".  `splits` is the ordered list of split parameters:
exactly the real roots of the derivative inside (0,1); a derivative that
is identically zero yields no split. -/
structure MonotonizerOutput (c1 c2 c3 : ℝ) (splits : List ℝ) : Prop where
  sorted : splits.Chain' (· < ·)
  mem_unit : ∀ s ∈ splits, 0 < s ∧ s < 1
  isRoot : ∀ s ∈ splits, curveDY c1 c2 c3 s = 0
  complete : ¬ (c1 = 0 ∧ c2 = 0 ∧ c3 = 0) →
    ∀ t, 0 < t → t < 1 → curveDY c1 c2 c3 t = 0 → t ∈ splits
  degenerate : c1 = 0 → c2 = 0 → c3 = 0 → splits = []

/-- The parameter cut points: 0, the splits in order, then 1. -/
def cutPoints (splits : List ℝ) : List ℝ := 0 :: splits ++ [1]

/-- Consecutive pairs of a list: the parameter intervals of the
monotonic sub-curves. -/
def consecPairs (l : List ℝ) : List (ℝ × ℝ) := l.zip l.tail

/-- The Y-range of the sub-curve on a parameter interval. -/
def pieceYRange (c0 c1 c2 c3 : ℝ) (p : ℝ × ℝ) : Set ℝ :=
  curveY c0 c1 c2 c3 '' Set.Icc p.1 p.2

/-- In a strictly sorted list, a consecutive pair is increasing. -/
theorem consecPairs_lt {l : List ℝ} (h : l.Pairwise (· < ·))
    {p : ℝ × ℝ} (hp : p ∈ consecPairs l) : p.1 < p.2 := by
  induction l with
  | nil => simp [consecPairs] at hp
  | cons x l ih =>
      cases l with
      | nil => simp [consecPairs] at hp
      | cons y l2 =>
          rcases List.mem_cons.mp hp with hxy | htail
          · have : p.1 = x ∧ p.2 = y := by
              constructor <;> simp [Prod.ext_iff] at hxy <;> tauto
            rw [this.1, this.2]
            exact (List.pairwise_cons.mp h).1 y (by simp)
          · exact ih (List.pairwise_cons.mp h).2 htail

/-- Both members of a consecutive pair belong to the list. -/
theorem consecPairs_mem {l : List ℝ} {p : ℝ × ℝ}
    (hp : p ∈ consecPairs l) : p.1 ∈ l ∧ p.2 ∈ l := by
  obtain ⟨x, y⟩ := p
  have h := List.mem_zip hp
  exact ⟨h.1, List.mem_of_mem_tail h.2⟩

/-- In a strictly sorted list, no member lies strictly between the two
components of a consecutive pair. -/
theorem consecPairs_no_mem_between {l : List ℝ} (h : l.Pairwise (· < ·))
    {p : ℝ × ℝ} (hp : p ∈ consecPairs l) {r : ℝ} (hr : r ∈ l) :
    ¬ (p.1 < r ∧ r < p.2) := by
  induction l with
  | nil => simp [consecPairs] at hp
  | cons x l ih =>
      cases l with
      | nil => simp [consecPairs] at hp
      | cons y l2 =>
          have hpw := List.pairwise_cons.mp h
          rcases List.mem_cons.mp hp with hxy | htail
          · have hpx : p.1 = x ∧ p.2 = y := by
              constructor <;> simp [Prod.ext_iff] at hxy <;> tauto
            rw [hpx.1, hpx.2]
            rintro ⟨h1, h2⟩
            rcases List.mem_cons.mp hr with hx | hr2
            · exact absurd (hx ▸ h1) (lt_irrefl r)
            · rcases List.mem_cons.mp hr2 with hy | hr3
              · exact absurd (hy ▸ h2) (lt_irrefl r)
              · exact absurd h2
                  (not_lt.mpr (le_of_lt ((List.pairwise_cons.mp hpw.2).1 r hr3)))
          · rcases List.mem_cons.mp hr with hx | hr2
            · rintro ⟨h1, h2⟩
              have hmem := (consecPairs_mem htail).1
              have : x < p.1 := hpw.1 p.1 hmem
              exact absurd (hx ▸ h1) (not_lt.mpr (le_of_lt this))
            · exact ih hpw.2 htail hr2

/-- Every cut point lies in [0, 1] when the splits lie in (0, 1). -/
theorem cutPoints_mem_Icc {splits : List ℝ}
    (hmem : ∀ s ∈ splits, 0 < s ∧ s < 1) :
    ∀ x ∈ cutPoints splits, 0 ≤ x ∧ x ≤ 1 := by
  intro x hx
  rcases List.mem_cons.mp hx with h0 | h1
  · subst h0; norm_num
  · rcases List.mem_append.mp h1 with hs | hone
    · exact ⟨le_of_lt (hmem x hs).1, le_of_lt (hmem x hs).2⟩
    · have hx1 : x = 1 := List.mem_singleton.mp hone
      rw [hx1]; norm_num

/-- A value produced by `getLast?` is a member of the list. -/
theorem mem_of_getLast?_mem {l : List ℝ} {x : ℝ} (h : x ∈ l.getLast?) :
    x ∈ l := by
  obtain ⟨hne, hx⟩ := List.mem_getLast?_eq_getLast h
  exact hx ▸ l.getLast_mem hne

/-- The cut points are strictly sorted when the splits are. -/
theorem cutPoints_pairwise {splits : List ℝ}
    (hsorted : splits.Chain' (· < ·))
    (hmem : ∀ s ∈ splits, 0 < s ∧ s < 1) :
    (cutPoints splits).Pairwise (· < ·) := by
  rw [← List.chain'_iff_pairwise]
  have h1 : cutPoints splits = 0 :: (splits ++ [1]) := rfl
  rw [h1, List.chain'_cons']
  constructor
  · intro y hy
    cases splits with
    | nil =>
        simp only [List.nil_append, List.head?_cons, Option.mem_def,
          Option.some.injEq] at hy
        rw [← hy]; norm_num
    | cons s rest =>
        simp only [List.cons_append, List.head?_cons, Option.mem_def,
          Option.some.injEq] at hy
        rw [← hy]
        exact (hmem s (by simp)).1
  · rw [List.chain'_append]
    refine ⟨hsorted, List.chain'_singleton 1, ?_⟩
    intro x hx y hy
    simp only [List.head?_cons, Option.mem_def, Option.some.injEq] at hy
    subst hy
    exact (hmem x (mem_of_getLast?_mem hx)).2

/-- `curveY` has derivative `curveDY` everywhere. -/
theorem hasDerivAt_curveY (c0 c1 c2 c3 t : ℝ) :
    HasDerivAt (curveY c0 c1 c2 c3) (curveDY c1 c2 c3 t) t := by
  have h : HasDerivAt (fun x : ℝ => c0 + c1 * x + c2 * x ^ 2 + c3 * x ^ 3)
      (0 + c1 * 1 + c2 * (2 * t ^ 1) + c3 * (3 * t ^ 2)) t := by
    exact (((hasDerivAt_const t c0).add ((hasDerivAt_id t).const_mul c1)).add
        ((hasDerivAt_pow 2 t).const_mul c2)).add
      ((hasDerivAt_pow 3 t).const_mul c3)
  have he : (0 + c1 * 1 + c2 * (2 * t ^ 1) + c3 * (3 * t ^ 2))
      = curveDY c1 c2 c3 t := by
    unfold curveDY; ring
  exact he ▸ h

/-- `curveY` is continuous. -/
theorem continuous_curveY (c0 c1 c2 c3 : ℝ) :
    Continuous (curveY c0 c1 c2 c3) :=
  continuous_iff_continuousAt.mpr fun t =>
    (hasDerivAt_curveY c0 c1 c2 c3 t).continuousAt

/-- `curveDY` is continuous. -/
theorem continuous_curveDY (c1 c2 c3 : ℝ) :
    Continuous (curveDY c1 c2 c3) := by
  unfold curveDY
  continuity

/-- On a parameter interval whose interior contains no root of the
derivative, the curve's Y is monotone or antitone (sign of a continuous
derivative cannot change without a root: intermediate value theorem). -/
theorem monotoneOn_piece_of_no_root (c0 c1 c2 c3 a b : ℝ)
    (hnoroot : ∀ t, a < t → t < b → curveDY c1 c2 c3 t ≠ 0) :
    MonotoneOn (curveY c0 c1 c2 c3) (Set.Icc a b) ∨
    AntitoneOn (curveY c0 c1 c2 c3) (Set.Icc a b) := by
  have hcont : ContinuousOn (curveY c0 c1 c2 c3) (Set.Icc a b) :=
    (continuous_curveY c0 c1 c2 c3).continuousOn
  have hdiff : DifferentiableOn ℝ (curveY c0 c1 c2 c3)
      (interior (Set.Icc a b)) := fun x _ =>
    (hasDerivAt_curveY c0 c1 c2 c3 x).differentiableAt.differentiableWithinAt
  have hderiv : ∀ x, deriv (curveY c0 c1 c2 c3) x = curveDY c1 c2 c3 x :=
    fun x => (hasDerivAt_curveY c0 c1 c2 c3 x).deriv
  by_cases hpos : ∀ t ∈ Set.Ioo a b, 0 ≤ curveDY c1 c2 c3 t
  · left
    apply monotoneOn_of_deriv_nonneg (convex_Icc a b) hcont hdiff
    intro x hx
    rw [interior_Icc] at hx
    rw [hderiv]
    exact hpos x hx
  · right
    push_neg at hpos
    obtain ⟨t0, ht0, ht0neg⟩ := hpos
    have hneg : ∀ t ∈ Set.Ioo a b, curveDY c1 c2 c3 t ≤ 0 := by
      intro t1 ht1
      by_contra hgt
      push_neg at hgt
      have hq : ContinuousOn (curveDY c1 c2 c3) (Set.Icc (min t0 t1) (max t0 t1)) :=
        (continuous_curveDY c1 c2 c3).continuousOn
      have hz : ∃ z ∈ Set.Icc (min t0 t1) (max t0 t1),
          curveDY c1 c2 c3 z = 0 := by
        rcases le_total t0 t1 with hle | hle
        · have himage := intermediate_value_Icc hle
            ((continuous_curveDY c1 c2 c3).continuousOn)
          have h0 : (0 : ℝ) ∈ Set.Icc (curveDY c1 c2 c3 t0) (curveDY c1 c2 c3 t1) :=
            ⟨le_of_lt ht0neg, le_of_lt hgt⟩
          obtain ⟨z, hz1, hz2⟩ := himage h0
          exact ⟨z, by rwa [min_eq_left hle, max_eq_right hle], hz2⟩
        · have himage := intermediate_value_Icc' hle
            ((continuous_curveDY c1 c2 c3).continuousOn)
          have h0 : (0 : ℝ) ∈ Set.Icc (curveDY c1 c2 c3 t0) (curveDY c1 c2 c3 t1) :=
            ⟨le_of_lt ht0neg, le_of_lt hgt⟩
          obtain ⟨z, hz1, hz2⟩ := himage h0
          exact ⟨z, by rwa [min_eq_right hle, max_eq_left hle], hz2⟩
      obtain ⟨z, hz1, hz2⟩ := hz
      have hzin : a < z ∧ z < b := by
        constructor
        · calc a < min t0 t1 := lt_min ht0.1 ht1.1
            _ ≤ z := hz1.1
        · calc z ≤ max t0 t1 := hz1.2
            _ < b := max_lt ht0.2 ht1.2
      exact hnoroot z hzin.1 hzin.2 hz2
    apply antitoneOn_of_deriv_nonpos (convex_Icc a b) hcont hdiff
    intro x hx
    rw [interior_Icc] at hx
    rw [hderiv]
    exact hneg x hx

/-- A non-degenerate derivative (a nonzero quadratic) has at most two
distinct roots: three pairwise distinct roots force all coefficients to
zero. -/
theorem curveDY_three_roots_degenerate {c1 c2 c3 a b c : ℝ}
    (hab : a < b) (hbc : b < c)
    (ha : curveDY c1 c2 c3 a = 0) (hb : curveDY c1 c2 c3 b = 0)
    (hc : curveDY c1 c2 c3 c = 0) :
    c1 = 0 ∧ c2 = 0 ∧ c3 = 0 := by
  unfold curveDY at ha hb hc
  have hne_ab : a - b ≠ 0 := sub_ne_zero.mpr (ne_of_lt hab)
  have hne_ac : a - c ≠ 0 := sub_ne_zero.mpr (ne_of_lt (lt_trans hab hbc))
  have hne_bc : b - c ≠ 0 := sub_ne_zero.mpr (ne_of_lt hbc)
  have f1 : 2 * c2 + 3 * c3 * (a + b) = 0 := by
    have hprod : (a - b) * (2 * c2 + 3 * c3 * (a + b)) = 0 := by
      linear_combination ha - hb
    rcases mul_eq_zero.mp hprod with h | h
    · exact absurd h hne_ab
    · exact h
  have f2 : 2 * c2 + 3 * c3 * (a + c) = 0 := by
    have hprod : (a - c) * (2 * c2 + 3 * c3 * (a + c)) = 0 := by
      linear_combination ha - hc
    rcases mul_eq_zero.mp hprod with h | h
    · exact absurd h hne_ac
    · exact h
  have hc3 : c3 = 0 := by
    have hprod : 3 * c3 * (b - c) = 0 := by linear_combination f1 - f2
    rcases mul_eq_zero.mp hprod with h | h
    · rcases mul_eq_zero.mp h with h3 | h3
      · norm_num at h3
      · exact h3
    · exact absurd h hne_bc
  have hc2 : c2 = 0 := by
    have := f1
    rw [hc3] at this
    linarith
  have hc1 : c1 = 0 := by
    have := ha
    rw [hc2, hc3] at this
    linarith
  exact ⟨hc1, hc2, hc3⟩

/-- In a `≤`-sorted nonempty list, the head is at most the last element. -/
theorem chain'_head_le_getLast (x : ℝ) (l : List ℝ)
    (h : (x :: l).Chain' (· ≤ ·)) :
    x ≤ (x :: l).getLast (List.cons_ne_nil x l) := by
  induction l generalizing x with
  | nil => simp [List.getLast]
  | cons y l ih =>
      have h1 : x ≤ y := (List.chain'_cons.mp h).1
      have h2 := ih y (List.chain'_cons.mp h).2
      calc x ≤ y := h1
        _ ≤ _ := by
          rw [List.getLast_cons (List.cons_ne_nil y l)]
          exact h2

/-- The union of the closed intervals over consecutive pairs of a
`≤`-sorted list spans from its head to its last element. -/
theorem iUnion_consecPairs_Icc (x : ℝ) (l : List ℝ)
    (h : (x :: l).Chain' (· ≤ ·)) (hne : l ≠ []) :
    (⋃ p ∈ consecPairs (x :: l), Set.Icc p.1 p.2)
      = Set.Icc x (l.getLast hne) := by
  induction l generalizing x with
  | nil => exact absurd rfl hne
  | cons y l ih =>
      cases l with
      | nil =>
          simp [consecPairs]
      | cons z l2 =>
          have hxy : x ≤ y := (List.chain'_cons.mp h).1
          have hch : (y :: z :: l2).Chain' (· ≤ ·) := (List.chain'_cons.mp h).2
          have hcons : consecPairs (x :: y :: z :: l2)
              = (x, y) :: consecPairs (y :: z :: l2) := rfl
          have hstep : (⋃ p ∈ consecPairs (x :: y :: z :: l2),
              Set.Icc p.1 p.2)
              = Set.Icc x y ∪ ⋃ p ∈ consecPairs (y :: z :: l2),
                  Set.Icc p.1 p.2 := by
            rw [hcons]
            simp
          rw [hstep, ih y hch (List.cons_ne_nil z l2)]
          have hylast : y ≤ (z :: l2).getLast (List.cons_ne_nil z l2) := by
            have := chain'_head_le_getLast y (z :: l2) hch
            rwa [List.getLast_cons (List.cons_ne_nil z l2)] at this
          rw [Set.Icc_union_Icc_eq_Icc hxy hylast,
            List.getLast_cons (List.cons_ne_nil z l2)]

/-- C2 (amended): the monotonizer's output is a finite sequence of
monotonic sub-curves — at most 2 splits — and the union of their
Y-ranges equals the original curve's Y-range.  (The pairwise
non-overlap of the Y-ranges does not hold; see the counterexample.) -/
theorem monotonizer_amended (c0 c1 c2 c3 : ℝ) (splits : List ℝ)
    (h : MonotonizerOutput c1 c2 c3 splits) :
    splits.length ≤ 2 ∧
    (∀ p ∈ consecPairs (cutPoints splits),
      MonotoneOn (curveY c0 c1 c2 c3) (Set.Icc p.1 p.2) ∨
      AntitoneOn (curveY c0 c1 c2 c3) (Set.Icc p.1 p.2)) ∧
    ((⋃ p ∈ consecPairs (cutPoints splits), pieceYRange c0 c1 c2 c3 p)
      = curveY c0 c1 c2 c3 '' Set.Icc 0 1) := by
  have hpw := cutPoints_pairwise h.sorted h.mem_unit
  refine ⟨?_, ?_, ?_⟩
  · rcases hs : splits with _ | ⟨a, _ | ⟨b, _ | ⟨c, rest⟩⟩⟩
    · simp
    · simp
    · simp
    · exfalso
      rw [hs] at h
      have ha := h.isRoot a (by simp)
      have hb := h.isRoot b (by simp)
      have hc := h.isRoot c (by simp)
      have hab : a < b := (List.chain'_cons.mp h.sorted).1
      have hbc : b < c :=
        (List.chain'_cons.mp (List.chain'_cons.mp h.sorted).2).1
      obtain ⟨h1, h2, h3⟩ :=
        curveDY_three_roots_degenerate hab hbc ha hb hc
      exact absurd (h.degenerate h1 h2 h3) (by simp)
  · intro p hp
    by_cases hdeg : c1 = 0 ∧ c2 = 0 ∧ c3 = 0
    · left
      intro u _ v _ _
      unfold curveY
      rw [hdeg.1, hdeg.2.1, hdeg.2.2]
      ring_nf
      exact le_refl _
    · apply monotoneOn_piece_of_no_root
      intro t hta htb hroot
      have hmem := consecPairs_mem hp
      have hb1 := cutPoints_mem_Icc h.mem_unit p.1 hmem.1
      have hb2 := cutPoints_mem_Icc h.mem_unit p.2 hmem.2
      have ht0 : 0 < t := lt_of_le_of_lt hb1.1 hta
      have ht1 : t < 1 := lt_of_lt_of_le htb hb2.2
      have hts : t ∈ splits := h.complete hdeg t ht0 ht1 hroot
      have htc : t ∈ cutPoints splits := by
        unfold cutPoints
        simp [hts]
      exact consecPairs_no_mem_between hpw hp htc ⟨hta, htb⟩
  · have hch : (cutPoints splits).Chain' (· ≤ ·) := by
      have := List.chain'_iff_pairwise.mpr hpw
      exact List.Chain'.imp (fun a b hab => le_of_lt hab) this
    have hne : (splits ++ [1] : List ℝ) ≠ [] := by simp
    have hcut : cutPoints splits = 0 :: (splits ++ [1]) := rfl
    have hunion := iUnion_consecPairs_Icc 0 (splits ++ [1])
      (hcut ▸ hch) hne
    have hlast : (splits ++ [1] : List ℝ).getLast hne = 1 :=
      List.getLast_append_singleton splits
    have himg : (⋃ p ∈ consecPairs (cutPoints splits),
        pieceYRange c0 c1 c2 c3 p)
        = curveY c0 c1 c2 c3 ''
            ⋃ p ∈ consecPairs (cutPoints splits), Set.Icc p.1 p.2 := by
      unfold pieceYRange
      rw [Set.image_iUnion₂]
    rw [himg, hcut, hunion, hlast]

/-- The monotonizer output for the quadratic Y(t) = 2t - 2t^2 (an arch
with its maximum at t = 1/2): a single split at the derivative's root. -/
theorem monotonizerOutput_quad_example :
    MonotonizerOutput 2 (-2) 0 [(1 : ℝ) / 2] := by
  constructor
  · simp
  · intro s hs
    rw [List.mem_singleton.mp hs]
    norm_num
  · intro s hs
    rw [List.mem_singleton.mp hs]
    unfold curveDY
    norm_num
  · intro _ t _ _ hroot
    unfold curveDY at hroot
    have ht : t = 1 / 2 := by linarith
    simp [ht]
  · intro h1
    norm_num at h1

/-- C2 counterexample: for the quadratic Y(t) = 2t - 2t^2 the
monotonizer splits at t = 1/2, and the two sub-curves' Y-ranges overlap
far beyond shared endpoints: the value 12/25 lies in both Y-ranges (at
t = 2/5 and t = 3/5) yet differs from every sub-curve endpoint value
(Y(0) = 0, Y(1/2) = 1/2, Y(1) = 0) — refuting "pairwise non-overlapping
except at shared endpoints". -/
theorem monotonizer_yRanges_overlap_counterexample :
    MonotonizerOutput 2 (-2) 0 [(1 : ℝ) / 2] ∧
    consecPairs (cutPoints [(1 : ℝ) / 2]) = [(0, 1 / 2), (1 / 2, 1)] ∧
    ¬ (pieceYRange 0 2 (-2) 0 (0, 1 / 2) ∩ pieceYRange 0 2 (-2) 0 (1 / 2, 1)
        ⊆ {curveY 0 2 (-2) 0 0, curveY 0 2 (-2) 0 (1 / 2),
           curveY 0 2 (-2) 0 1}) := by
  refine ⟨monotonizerOutput_quad_example, rfl, ?_⟩
  intro hsub
  have hmem : (12 / 25 : ℝ) ∈ pieceYRange 0 2 (-2) 0 (0, 1 / 2)
      ∩ pieceYRange 0 2 (-2) 0 (1 / 2, 1) := by
    constructor
    · refine ⟨2 / 5, ⟨by norm_num, by norm_num⟩, ?_⟩
      unfold curveY
      norm_num
    · refine ⟨3 / 5, ⟨by norm_num, by norm_num⟩, ?_⟩
      unfold curveY
      norm_num
  have hend := hsub hmem
  simp only [Set.mem_insert_iff, Set.mem_singleton_iff] at hend
  unfold curveY at hend
  rcases hend with h | h | h <;> norm_num at h

/-- C2 amended witness: the amended property instantiated at the
quadratic Y(t) = 2t - 2t^2 with its single split at 1/2. -/
theorem monotonizer_amended_witness :
    ([(1 : ℝ) / 2] : List ℝ).length ≤ 2 ∧
    ((⋃ p ∈ consecPairs (cutPoints [(1 : ℝ) / 2]),
        pieceYRange 0 2 (-2) 0 p)
      = curveY 0 2 (-2) 0 '' Set.Icc 0 1) := by
  have h := monotonizer_amended 0 2 (-2) 0 [(1 : ℝ) / 2]
    monotonizerOutput_quad_example
  exact ⟨h.1, h.2.2⟩
